import Mathlib

/-!
# Catalogue viewer (`assets/script.js`): embedding and verified properties

The script is a browser-side catalogue viewer.  Its functions are embedded as
Lean definitions: pure functions as functions, closures with mutable
variables as explicit state records with one transition per callback, and
browser built-ins (`encodeURIComponent`, `decodeURIComponent`, `Number`,
`String.prototype.trim`, `Array.prototype.sort`) as definitions following
ECMAScript.

Strings.  The strings the script handles come from `Response.text()` (UTF-8
decoding, which never produces an unpaired surrogate), from literals of the
script, or from the page's form fields, so strings are modelled as lists of
Unicode scalar values.  All string operations the script uses (`split`, `replace` with an
ASCII pattern, `trim`, `includes`, concatenation) agree on code points and on
UTF-16 code units for such strings.
-/

namespace Catalog

/-- A well-formed JavaScript string, as its sequence of code points. -/
abbrev JSString := List Char

/-! ## Built-ins: `encodeURIComponent`, `decodeURIComponent` -/

/-- The characters `encodeURIComponent` leaves alone: ASCII letters, digits and
`- _ . ! ~ * ' ( )`. -/
def uriUnreserved (c : Char) : Bool :=
  decide ((65 ≤ c.toNat ∧ c.toNat ≤ 90) ∨ (97 ≤ c.toNat ∧ c.toNat ≤ 122) ∨
    (48 ≤ c.toNat ∧ c.toNat ≤ 57) ∨ c.toNat ∈ [45, 95, 46, 33, 126, 42, 39, 40, 41])

/-- Upper-case hexadecimal digit of a value below 16. -/
def hexDigit (d : Nat) : Char :=
  if d < 10 then Char.ofNat (48 + d) else Char.ofNat (55 + d)

/-- Value of a hexadecimal digit in either case (`ParseHexOctet` reads both). -/
def hexVal (c : Char) : Option Nat :=
  if 48 ≤ c.toNat ∧ c.toNat ≤ 57 then some (c.toNat - 48)
  else if 65 ≤ c.toNat ∧ c.toNat ≤ 70 then some (c.toNat - 55)
  else if 97 ≤ c.toNat ∧ c.toNat ≤ 102 then some (c.toNat - 87)
  else none

/-- UTF-8 octets of a code point. -/
def utf8Encode (n : Nat) : List Nat :=
  if n < 0x80 then [n]
  else if n < 0x800 then [0xC0 + n / 64, 0x80 + n % 64]
  else if n < 0x10000 then [0xE0 + n / 4096, 0x80 + n / 64 % 64, 0x80 + n % 64]
  else [0xF0 + n / 262144, 0x80 + n / 4096 % 64, 0x80 + n / 64 % 64, 0x80 + n % 64]

/-- One octet as `%XX`. -/
def pctEncodeByte (b : Nat) : List Char :=
  ['%', hexDigit (b / 16), hexDigit (b % 16)]

/-- What `encodeURIComponent` emits for one code point. -/
def encodeChar (c : Char) : List Char :=
  if uriUnreserved c then [c] else (utf8Encode c.toNat).flatMap pctEncodeByte

/-- The built-in `encodeURIComponent` (ECMAScript `Encode` with the unreserved set
of URI components).  On a well-formed string it never throws. -/
def encodeURIComponent (s : JSString) : JSString :=
  s.flatMap encodeChar

/-- A unit of a percent-encoded string: a literal character or an escaped octet. -/
inductive PctTok where
  | lit (c : Char)
  | octet (b : Nat)
  deriving DecidableEq

/-- First pass of ECMAScript `Decode`: every `%` must be followed by two
hexadecimal digits (otherwise `URIError`, here `none`). -/
def pctTokens : List Char → Option (List PctTok)
  | [] => some []
  | c :: rest =>
    if c = '%' then
      match rest with
      | h1 :: h2 :: rest2 =>
        match hexVal h1, hexVal h2, pctTokens rest2 with
        | some a, some b, some ts => some (PctTok.octet (16 * a + b) :: ts)
        | _, _, _ => none
      | _ => none
    else
      match pctTokens rest with
      | some ts => some (PctTok.lit c :: ts)
      | none => none

/-- A UTF-8 continuation octet `10xxxxxx`. -/
def isCont (b : Nat) : Bool := decide (0x80 ≤ b ∧ b < 0xC0)

/-- A Unicode scalar value (a code point that is not a surrogate). -/
def isScalar (n : Nat) : Bool := decide (n < 0xD800 ∨ (0xDFFF < n ∧ n < 0x110000))

/-- Code point of a complete multi-octet sequence, when it is valid UTF-8:
continuation octets in place, no overlong form, no surrogate, at most U+10FFFF. -/
def utf8Value (octets : List Nat) : Option Nat :=
  match octets with
  | [b, b1] =>
    let cp := (b - 0xC0) * 64 + (b1 - 0x80)
    if isCont b1 && decide (0x80 ≤ cp) then some cp else none
  | [b, b1, b2] =>
    let cp := (b - 0xE0) * 4096 + (b1 - 0x80) * 64 + (b2 - 0x80)
    if isCont b1 && isCont b2 && decide (0x800 ≤ cp) && isScalar cp then some cp else none
  | [b, b1, b2, b3] =>
    let cp := (b - 0xF0) * 262144 + (b1 - 0x80) * 4096 + (b2 - 0x80) * 64 + (b3 - 0x80)
    if isCont b1 && isCont b2 && isCont b3 && decide (0x10000 ≤ cp) && isScalar cp
    then some cp else none
  | _ => none

/-- Where the decoder stands between two units: outside a sequence, or inside
one with `need` octets still to read after `octets`. -/
inductive Utf8State where
  | idle
  | pending (need : Nat) (octets : List Nat)
  deriving DecidableEq

/-- What one unit does to the decoder. -/
inductive Utf8Step where
  | fail
  | emit (c : Char)
  | more (need : Nat) (octets : List Nat)
  deriving DecidableEq

/-- One unit read by `Decode` (empty reserved set).  Outside a sequence a literal
passes through and an octet is classified by its leading one bits (`n = 1` and
`n > 4` are errors); inside a sequence only an escaped octet may follow, and the
last octet triggers the UTF-8 validity check. -/
def utf8Step (st : Utf8State) (tok : PctTok) : Utf8Step :=
  match st, tok with
  | Utf8State.idle, PctTok.lit c => Utf8Step.emit c
  | Utf8State.idle, PctTok.octet b =>
    if b < 0x80 then Utf8Step.emit (Char.ofNat b)
    else if b < 0xC0 then Utf8Step.fail
    else if b < 0xE0 then Utf8Step.more 1 [b]
    else if b < 0xF0 then Utf8Step.more 2 [b]
    else if b < 0xF8 then Utf8Step.more 3 [b]
    else Utf8Step.fail
  | Utf8State.pending _ _, PctTok.lit _ => Utf8Step.fail
  | Utf8State.pending need octets, PctTok.octet b =>
    if need ≤ 1 then
      match utf8Value (octets ++ [b]) with
      | some cp => Utf8Step.emit (Char.ofNat cp)
      | none => Utf8Step.fail
    else Utf8Step.more (need - 1) (octets ++ [b])

/-- Second pass of ECMAScript `Decode`: run the units through `utf8Step`; the
string may not end inside a sequence. -/
def utf8Go (ts : List PctTok) (st : Utf8State) : Option (List Char) :=
  match ts with
  | [] =>
    match st with
    | Utf8State.idle => some []
    | Utf8State.pending _ _ => none
  | tok :: rest =>
    match utf8Step st tok with
    | Utf8Step.fail => none
    | Utf8Step.emit c =>
      match utf8Go rest Utf8State.idle with
      | some r => some (c :: r)
      | none => none
    | Utf8Step.more need octets => utf8Go rest (Utf8State.pending need octets)

/-- Second pass from the start of the string. -/
def utf8Chars (ts : List PctTok) : Option (List Char) :=
  utf8Go ts Utf8State.idle

/-- The built-in `decodeURIComponent`; `none` stands for a thrown `URIError`. -/
def decodeURIComponent (s : JSString) : Option JSString :=
  match pctTokens s with
  | some ts => utf8Chars ts
  | none => none

/-! ## Path resolver -/

/-- The expression `p.split('/')`. -/
def splitSlash (p : JSString) : List JSString := List.splitOn '/' p

/-- The expression `segs.join('/')`. -/
def joinSlash (segs : List JSString) : JSString := List.intercalate ['/'] segs

/-- Source `encodePathSegments`: a falsy (empty) path is returned as it is,
any other path is split on `/`, encoded segment by segment and rejoined. -/
def encodePathSegments (p : JSString) : JSString :=
  if p.isEmpty then p
  else joinSlash ((splitSlash p).map encodeURIComponent)

/-- The expression `p || ""` for a path that may be missing (`undefined`). -/
def orEmpty (p : Option JSString) : JSString :=
  match p with
  | some s => if s.isEmpty then [] else s
  | none => []

/-- The expression `s.replace(/^\.?\//, '')`: the pattern is anchored at the start,
first tried with the optional dot, then without it; only that one match is removed. -/
def stripLeadingDotSlash (s : JSString) : JSString :=
  if s.take 2 = ['.', '/'] then s.drop 2
  else if s.take 1 = ['/'] then s.drop 1
  else s

/-- Source `candidatesFor`. -/
def candidatesFor (p : Option JSString) : List JSString :=
  let clean := stripLeadingDotSlash (orEmpty p)
  let seg := encodePathSegments clean
  [ "./".toList ++ seg,
    "./".toList ++ clean,
    "./site_out_new/".toList ++ seg,
    "./images/".toList ++ seg,
    "/".toList ++ seg ]


/-- The claim's "p with a leading `./` or `/` removed": `c` is what follows a
leading `./`, or what follows a leading `/`, or all of `p` when `p` starts with
neither. -/
def IsCleaned (p c : JSString) : Prop :=
  p = "./".toList ++ c ∨ p = "/".toList ++ c ∨
    ((∀ r, p ≠ "./".toList ++ r) ∧ (∀ r, p ≠ "/".toList ++ r) ∧ c = p)

/-- The claim's `E`: encode each `/`-separated segment and rejoin with `/`. -/
def encodeSegments (c : JSString) : JSString :=
  joinSlash ((splitSlash c).map encodeURIComponent)


/-! ## Fallback loader -/

/-- An image slot: the `src` it was last given (none before any assignment) and
whether `style.display` is `'none'`. -/
structure ImgSlot where
  src : Option JSString
  hidden : Bool
  deriving DecidableEq

/-- The closure made by one call of `loadImgWithFallback`: the slot, the counter
`i`, and two ghost fields: `requested` lists every URL assigned to `img.src` by
this closure, oldest first; `inFlight` is the list position whose load the last
call of `tryNext` started (none when that call assigned nothing). -/
structure Loader where
  img : ImgSlot
  i : Nat
  requested : List JSString
  inFlight : Option Nat
  deriving DecidableEq

/-- Source `tryNext`, the slot's `onerror` handler:
`if(i >= srcList.length) then hide and return; img.src = srcList[i++]`. -/
def tryNext (srcList : List JSString) (L : Loader) : Loader :=
  if srcList.length ≤ L.i then
    { L with img := { L.img with hidden := true }, inFlight := none }
  else
    { img := { L.img with src := some (srcList.getD L.i []) },
      i := L.i + 1,
      requested := L.requested ++ [srcList.getD L.i []],
      inFlight := some L.i }

/-- Source `loadImgWithFallback`: `i = 0`, install `tryNext` as the error
handler, call it once. -/
def loadImgWithFallback (img : ImgSlot) (srcList : List JSString) : Loader :=
  tryNext srcList { img := img, i := 0, requested := [], inFlight := none }

/-- The page's interval timers: handles handed out so far and those still running.
Handles are positive, hence truthy. -/
structure Timers where
  nextId : Nat
  active : List Nat
  deriving DecidableEq

/-- The built-in `setInterval`: a fresh handle, now running. -/
def setInterval (w : Timers) : Nat × Timers :=
  (w.nextId + 1, { nextId := w.nextId + 1, active := (w.nextId + 1) :: w.active })

/-- The built-in `clearInterval`. -/
def clearInterval (w : Timers) (t : Nat) : Timers :=
  { w with active := w.active.filter (fun x => x != t) }

/-- The mutable variables of one card's closure: `hoverTimer` (`null` is `none`)
and `hoverIdx`. -/
structure HoverState where
  hoverTimer : Option Nat
  hoverIdx : Nat
  deriving DecidableEq

/-- Source `startHover` for an item with `k` images (`k` is `it.images.length`):
nothing when there is no image; otherwise `hoverIdx = 1 % k`, a running timer is
cleared, and a new one is started. -/
def startHover (k : Nat) (w : Timers) (s : HoverState) : Timers × HoverState :=
  if k = 0 then (w, s)
  else
    let w1 := match s.hoverTimer with
      | some t => clearInterval w t
      | none => w
    let r := setInterval w1
    (r.2, { hoverTimer := some r.1, hoverIdx := 1 % k })

/-- The timer callback of `startHover`, as far as the closure variables go: the
image at `hoverIdx` is handed to the cover, then
`hoverIdx = (hoverIdx + 1) % k`. -/
def hoverTick (k : Nat) (s : HoverState) : HoverState :=
  { s with hoverIdx := (s.hoverIdx + 1) % k }

/-- Source `stopHover`, as far as the closure variables go: the timer is cleared
and forgotten, `hoverIdx = 0`. -/
def stopHover (w : Timers) (s : HoverState) : Timers × HoverState :=
  let w1 := match s.hoverTimer with
    | some t => clearInterval w t
    | none => w
  (w1, { hoverTimer := none, hoverIdx := 0 })

/-! ## Lightbox -/

/-- A JavaScript number used as an index: an integer, or `NaN` (`none`).  Integers
stand for themselves as long as they are exactly representable (below `2^53` in
absolute value), which indices are. -/
abbrev JSIndex := Option Int

/-- The operator `a % b` on such numbers: the remainder has the sign of the
dividend, and a zero divisor gives `NaN`. -/
def jsRem (a b : JSIndex) : JSIndex :=
  match a, b with
  | some x, some y => if y = 0 then none else some (Int.tmod x y)
  | _, _ => none

/-- The operator `a + b` on such numbers. -/
def jsAdd (a b : JSIndex) : JSIndex :=
  match a, b with
  | some x, some y => some (x + y)
  | _, _ => none

/-- The expression `arr[i]`: the element when `i` is an integer within bounds,
`undefined` (`none`) otherwise. -/
def jsGet (arr : List JSString) (i : JSIndex) : Option JSString :=
  match i with
  | some z => if 0 ≤ z then arr[z.toNat]? else none
  | none => none

/-- A number inside a template literal. -/
def numberToString (x : JSIndex) : JSString :=
  match x with
  | some z => (toString z).toList
  | none => "NaN".toList

/-- The global `LB`. -/
structure LBState where
  idx : JSIndex
  images : List JSString
  title : JSString
  deriving DecidableEq

/-- The lightbox on the page: the global `LB`, whether `#lightbox` has the class
`open`, the text of `#lb-caption`, the slot `#lb-img` as it was before any loader
was put on it, and the loader now installed on it (which carries the slot). -/
structure Lightbox where
  LB : LBState
  isOpen : Bool
  caption : JSString
  img : ImgSlot
  loader : Option Loader
  deriving DecidableEq

/-- The slot `#lb-img` as it is now. -/
def Lightbox.currentImg (s : Lightbox) : ImgSlot :=
  match s.loader with
  | some l => l.img
  | none => s.img

/-- Source `openLightbox(images, startIdx, title)` with its inner `show(startIdx)`:
`LB.idx = (i + LB.images.length) % LB.images.length`, the image at that index is
loaded through the fallback chain, the caption is
`title (LB.idx+1/LB.images.length)`, and the box is opened. -/
def openLightbox (images : List JSString) (startIdx : JSIndex) (title : JSString)
    (s : Lightbox) : Lightbox :=
  let n : JSIndex := some (images.length : Int)
  let idx := jsRem (jsAdd startIdx n) n
  let srcs := candidatesFor (jsGet images idx)
  let ld := loadImgWithFallback s.currentImg srcs
  { LB := { idx := idx, images := images, title := title },
    isOpen := true,
    caption := title ++ " (".toList ++ numberToString (jsAdd idx (some 1)) ++ "/".toList
      ++ numberToString n ++ ")".toList,
    img := s.img,
    loader := some ld }

/-- Source `closeLightbox`. -/
def closeLightbox (s : Lightbox) : Lightbox :=
  { s with isOpen := false }

/-- The click handler of `.lb-next`: `openLightbox(LB.images, LB.idx+1, LB.title)`. -/
def lbNext (s : Lightbox) : Lightbox :=
  openLightbox s.LB.images (jsAdd s.LB.idx (some 1)) s.LB.title s

/-- The click handler of `.lb-prev`: `openLightbox(LB.images, LB.idx-1, LB.title)`. -/
def lbPrev (s : Lightbox) : Lightbox :=
  openLightbox s.LB.images (jsAdd s.LB.idx (some (-1))) s.LB.title s

/-- The keys the `keydown` handler tells apart. -/
inductive Key where
  | escape
  | arrowLeft
  | arrowRight
  | other
  deriving DecidableEq

/-- The `keydown` handler: nothing while the box is closed; `Escape` closes,
the arrows navigate. -/
def keydown (k : Key) (s : Lightbox) : Lightbox :=
  if s.isOpen then
    match k with
    | Key.escape => closeLightbox s
    | Key.arrowLeft => lbPrev s
    | Key.arrowRight => lbNext s
    | Key.other => s
  else s

/-! ## Built-ins: white space, `trim`, numbers, `Number`, plain objects, `sort` -/

/-- ECMAScript `WhiteSpace` and `LineTerminator` code points: what `trim` removes
and what `\s` matches. -/
def isJSWhitespace (c : Char) : Bool :=
  decide (c.toNat ∈ [0x9, 0xA, 0xB, 0xC, 0xD, 0x20, 0xA0, 0x1680, 0x2028, 0x2029, 0x202F,
      0x205F, 0x3000, 0xFEFF] ∨ (0x2000 ≤ c.toNat ∧ c.toNat ≤ 0x200A))

/-- The built-in `s.trim()`. -/
def jsTrim (s : JSString) : JSString :=
  (s.dropWhile isJSWhitespace).rdropWhile isJSWhitespace

/-- The expression `s.replace(/\s/g, '')`. -/
def removeWhitespace (s : JSString) : JSString :=
  s.filter (fun c => !isJSWhitespace c)

/-- A number value other than `NaN`: a finite value or an infinity.  A finite value
is kept as the exact rational it denotes (for a numeric literal: the value the
digits spell); the program holds the nearest double, which is the same number
whenever that number is a double, as integer prices below `2^53` are. -/
inductive JSNumber where
  | negInf
  | fin (q : ℚ)
  | posInf
  deriving DecidableEq

/-- Numeric order on number values. -/
def JSNumber.le : JSNumber → JSNumber → Prop
  | JSNumber.negInf, _ => True
  | JSNumber.fin _, JSNumber.negInf => False
  | JSNumber.fin a, JSNumber.fin b => a ≤ b
  | JSNumber.fin _, JSNumber.posInf => True
  | JSNumber.posInf, JSNumber.posInf => True
  | JSNumber.posInf, _ => False

/-- The operator `a - b`; `none` is `NaN` (the difference of equal infinities).
The sign of a difference of two doubles is the sign of their exact difference. -/
def JSNumber.sub : JSNumber → JSNumber → Option JSNumber
  | JSNumber.fin a, JSNumber.fin b => some (JSNumber.fin (a - b))
  | JSNumber.fin _, JSNumber.posInf => some JSNumber.negInf
  | JSNumber.fin _, JSNumber.negInf => some JSNumber.posInf
  | JSNumber.posInf, JSNumber.posInf => none
  | JSNumber.posInf, _ => some JSNumber.posInf
  | JSNumber.negInf, JSNumber.negInf => none
  | JSNumber.negInf, _ => some JSNumber.negInf

/-- How `Array.prototype.sort` reads a comparator result: `NaN` counts as `+0`,
otherwise only the sign matters. -/
def sortSign (v : Option JSNumber) : Int :=
  match v with
  | none => 0
  | some JSNumber.negInf => -1
  | some JSNumber.posInf => 1
  | some (JSNumber.fin q) => if q < 0 then -1 else if 0 < q then 1 else 0

/-- The built-in `list.sort(cmp)` for a consistent comparator: the stable sorted
arrangement (a negative result puts the first argument first, zero keeps the
given order); insertion from the right computes it. -/
def jsSort {α : Type} (cmp : α → α → Int) (list : List α) : List α :=
  list.insertionSort (fun a b => cmp a b ≤ 0)

/-- Digits of a numeral in the given base, most significant first; every character
must be a digit of that base. -/
def digitsOf (base : Nat) : List Char → Option (List Nat)
  | [] => some []
  | c :: r =>
    match hexVal c, digitsOf base r with
    | some d, some ds => if d < base then some (d :: ds) else none
    | _, _ => none

/-- Value of a digit list. -/
def digitsValue (base : Nat) (ds : List Nat) : Nat :=
  ds.foldl (fun acc d => acc * base + d) 0

/-- A non-empty numeral in the given base. -/
def parseDigits (base : Nat) (s : List Char) : Option Nat :=
  if s.isEmpty then none
  else match digitsOf base s with
    | some ds => some (digitsValue base ds)
    | none => none

/-- ASCII decimal digit. -/
def isDecDigit (c : Char) : Bool := decide (48 ≤ c.toNat ∧ c.toNat ≤ 57)

/-- The grammar's `ExponentPart` after the indicator: an optionally signed
non-empty decimal numeral. -/
def parseSignedInteger (s : List Char) : Option Int :=
  match s with
  | [] => none
  | c :: r =>
    if c = '-' then (parseDigits 10 r).map (fun n => -(n : Int))
    else if c = '+' then (parseDigits 10 r).map (fun n => (n : Int))
    else (parseDigits 10 s).map (fun n => (n : Int))

/-- A numeric literal as read: an infinity, or a decimal with its sign, the number
its digits spell and a power of ten. -/
inductive NumLit where
  | infinity (neg : Bool)
  | decimal (neg : Bool) (mantissa : Nat) (exp10 : Int)
  deriving DecidableEq

/-- The number a literal denotes. -/
def NumLit.value : NumLit → JSNumber
  | NumLit.infinity false => JSNumber.posInf
  | NumLit.infinity true => JSNumber.negInf
  | NumLit.decimal false m x => JSNumber.fin ((m : ℚ) * (10 : ℚ) ^ x)
  | NumLit.decimal true m x => JSNumber.fin (-((m : ℚ) * (10 : ℚ) ^ x))

/-- Put a sign on an unsigned literal. -/
def NumLit.withSign (neg : Bool) : NumLit → NumLit
  | NumLit.infinity _ => NumLit.infinity neg
  | NumLit.decimal _ m x => NumLit.decimal neg m x

/-- The grammar's `StrUnsignedDecimalLiteral`: `Infinity`, or digits, an optional
point with optional digits (at least one digit in all) and an optional exponent. -/
def parseUnsigned (s : List Char) : Option NumLit :=
  if s = "Infinity".toList then some (NumLit.infinity false)
  else
    let ip := s.takeWhile isDecDigit
    let r1 := s.dropWhile isDecDigit
    let hasPoint := decide (r1.head? = some '.')
    let fp := if hasPoint then r1.tail.takeWhile isDecDigit else []
    let r2 := if hasPoint then r1.tail.dropWhile isDecDigit else r1
    if ip.isEmpty && fp.isEmpty then none
    else
      let ex : Option Int :=
        match r2 with
        | [] => some 0
        | e :: r3 => if e = 'e' ∨ e = 'E' then parseSignedInteger r3 else none
      match parseDigits 10 (ip ++ fp), ex with
      | some m, some x => some (NumLit.decimal false m (x - (fp.length : Int)))
      | _, _ => none

/-- ECMAScript `StringNumericLiteral`: white space around the literal is dropped,
the empty string reads as `0`, `0x`, `0o`, `0b` introduce unsigned integers,
anything else must be a signed decimal literal or `Infinity`. -/
def parseNumericLiteral (s : JSString) : Option NumLit :=
  let t := jsTrim s
  if t.isEmpty then some (NumLit.decimal false 0 0)
  else if t.take 2 = "0x".toList ∨ t.take 2 = "0X".toList then
    (parseDigits 16 (t.drop 2)).map (fun n => NumLit.decimal false n 0)
  else if t.take 2 = "0o".toList ∨ t.take 2 = "0O".toList then
    (parseDigits 8 (t.drop 2)).map (fun n => NumLit.decimal false n 0)
  else if t.take 2 = "0b".toList ∨ t.take 2 = "0B".toList then
    (parseDigits 2 (t.drop 2)).map (fun n => NumLit.decimal false n 0)
  else if t.head? = some '-' then (parseUnsigned t.tail).map (NumLit.withSign true)
  else if t.head? = some '+' then parseUnsigned t.tail
  else parseUnsigned t

/-- The built-in `Number` on a string (ECMAScript `StringToNumber`); `none` is
`NaN`. -/
def stringToNumber (s : JSString) : Option JSNumber :=
  (parseNumericLiteral s).map NumLit.value

/-- The values that meet in the script's `||` chains: `undefined`, a string, or an
integer literal of the script. -/
inductive Val where
  | undefined
  | str (s : JSString)
  | num (z : Int)
  deriving DecidableEq

/-- Truthiness: `undefined`, the empty string and `0` are falsy. -/
def Val.truthy : Val → Bool
  | Val.undefined => false
  | Val.str s => !s.isEmpty
  | Val.num z => decide (z ≠ 0)

/-- The operator `a || b`. -/
def Val.or (a b : Val) : Val := if a.truthy then a else b

/-- The operator `a && b`. -/
def Val.and (a b : Val) : Val := if a.truthy then b else a

/-- The built-in `String(v)`. -/
def Val.toJSString : Val → JSString
  | Val.undefined => "undefined".toList
  | Val.str s => s
  | Val.num z => (toString z).toList

/-- A property read: a missing property is `undefined`. -/
def Val.ofOption : Option JSString → Val
  | some s => Val.str s
  | none => Val.undefined

/-- A plain object used as a record: its own properties, in creation order.  The
property names the script reads (`id`, `cat`, `img1`, ...) are not names of
`Object.prototype`, so a read is a look-up among own properties. -/
abbrev Row := List (JSString × JSString)

/-- The expression `row[k]` for such a name. -/
def Row.get (row : Row) (k : JSString) : Option JSString :=
  List.lookup k row

/-- Replace the value of an existing own property. -/
def Row.replace (row : Row) (k v : JSString) : Row :=
  row.map (fun kv => if kv.1 = k then (k, v) else kv)

/-- The assignment `row[k] = v` on an object created by the literal `{}`: an own
property is updated or appended, except for the name `__proto__`, whose
assignment runs the inherited setter of `Object.prototype`, and that setter
ignores a string. -/
def Row.set (row : Row) (k v : JSString) : Row :=
  if k = "__proto__".toList then row
  else if (Row.get row k).isSome then Row.replace row k v
  else row ++ [(k, v)]

/-! ## Source helpers and item mapping -/

/-- Source `toNumber`: `Number(String(v).replace(/\s/g,''))`, with `NaN` turned
into `0`. -/
def toNumber (v : Val) : JSNumber :=
  match stringToNumber (removeWhitespace v.toJSString) with
  | some n => n
  | none => JSNumber.fin 0

/-- An item record. -/
structure Item where
  id : JSString
  cat : JSString
  title : JSString
  desc : JSString
  price_display : JSString
  price_numeric : JSNumber
  images : List JSString
  deriving DecidableEq

/-- Built-ins whose result depends on Unicode and locale tables of the host:
`String.prototype.toLowerCase`, `String.prototype.localeCompare(_, 'hu')`, and
`Number(s).toLocaleString('hu-HU')`. -/
structure Host where
  toLowerCase : JSString → JSString
  localeCompare : JSString → JSString → Int
  huNumber : JSString → JSString

/-- The expression `(row[k]||'').trim()`. -/
def trimmedField (row : Row) (k : JSString) : JSString :=
  jsTrim ((Val.ofOption (row.get k)).or (Val.str [])).toJSString

/-- Source `toItem`. -/
def toItem (host : Host) (row : Row) : Item :=
  let imgs := (["img1".toList, "img2".toList, "img3".toList, "img4".toList].map
    (fun k => trimmedField row k)).filter (fun s => !s.isEmpty)
  let trimmedDisplay : Val :=
    match row.get "price_display".toList with
    | some s => Val.str (jsTrim s)
    | none => Val.undefined
  let synthesized : Val :=
    if ((Val.ofOption (row.get "ar_indulo_huf".toList)).and
        (Val.ofOption (row.get "ar_gyors_huf".toList))).truthy then
      Val.str ("Induló: ".toList
        ++ host.huNumber (Val.ofOption (row.get "ar_indulo_huf".toList)).toJSString
        ++ " Ft / Gyors: ".toList
        ++ host.huNumber (Val.ofOption (row.get "ar_gyors_huf".toList)).toJSString
        ++ " Ft".toList)
    else Val.str []
  { id := trimmedField row "id".toList,
    cat := trimmedField row "cat".toList,
    title := trimmedField row "title".toList,
    desc := jsTrim (((Val.ofOption (row.get "desc".toList)).or
      (Val.ofOption (row.get "desc_hu".toList))).or (Val.str [])).toJSString,
    price_display := (trimmedDisplay.or synthesized).toJSString,
    price_numeric := toNumber (((Val.ofOption (row.get "price_numeric".toList)).or
      (Val.ofOption (row.get "ar_indulo_huf".toList))).or (Val.num 0)),
    images := imgs }

/-! ## Catalog loader -/

/-- Drop one trailing carriage return. -/
def dropTrailingCR (s : JSString) : JSString :=
  if s.getLast? = some '\r' then s.dropLast else s

/-- The expression `s.split(/\r?\n/)`: the separators are the line feeds, each
together with a carriage return just before it. -/
def splitLines (s : JSString) : List JSString :=
  let ps := List.splitOn '\n' s
  ps.dropLast.map dropTrailingCR ++ ps.drop (ps.length - 1)

/-- The expression `line.split('\t')`. -/
def splitTab (line : JSString) : List JSString := List.splitOn '\t' line

/-- The callback of `lines.slice(1).map` in `loadTSV`: every header, with its
position `i`, is assigned `cols[i] ?? ''` on a fresh object. -/
def parseRow (headers : List JSString) (line : JSString) : Row :=
  let cols := splitTab line
  headers.enum.foldl (fun row ih => Row.set row ih.2 (cols.getD ih.1 [])) []

/-- Source `loadTSV`, from the fetched text on. -/
def loadTSV (txt : JSString) : List Row :=
  let lines := splitLines (jsTrim txt)
  let headers := splitTab (lines.headD [])
  (lines.drop 1).map (parseRow headers)

/-! ## Filter, sort, render -/

/-- Source `applySort`: four tests of the selected mode in a row, at most one of
which holds. -/
def applySort (host : Host) (v : JSString) (list : List Item) : List Item :=
  let l1 := if v = "title-asc".toList then
      jsSort (fun a b => host.localeCompare a.title b.title) list else list
  let l2 := if v = "title-desc".toList then
      jsSort (fun a b => host.localeCompare b.title a.title) l1 else l1
  let l3 := if v = "price-asc".toList then
      jsSort (fun a b => sortSign (JSNumber.sub a.price_numeric b.price_numeric)) l2 else l2
  let l4 := if v = "price-desc".toList then
      jsSort (fun a b => sortSign (JSNumber.sub b.price_numeric a.price_numeric)) l3 else l3
  l4

/-- The built-in `s.includes(t)`. -/
def jsIncludes (s t : JSString) : Bool := decide (t <:+: s)

/-- The view `render` hands to the card builder, for the text `q` of the search
box, the selected category `c` (empty when none is selected) and the sort mode
`v`. -/
def renderView (host : Host) (items : List Item) (q c v : JSString) : List Item :=
  let term := host.toLowerCase ((Val.str q).or (Val.str [])).toJSString
  let view := (items.filter (fun x => c.isEmpty || decide (x.cat = c))).filter
    (fun x => term.isEmpty ||
      (jsIncludes (host.toLowerCase x.title) term ||
        jsIncludes (host.toLowerCase x.desc) term ||
        jsIncludes (host.toLowerCase ((Val.str x.cat).or (Val.str [])).toJSString) term))
  applySort host v view

/-- The page as far as `render` goes: the master list `items` and the items of
the cards in `#grid`, in order. -/
structure App where
  items : List Item
  grid : List Item

/-- Source `render`: the grid is emptied and refilled from the view. -/
def render (host : Host) (q c v : JSString) (app : App) : App :=
  { items := app.items, grid := renderView host app.items q c v }

/-! ## Definitions used to state the claims -/

/-- A stand-in for the host tables, used where a closed example needs one: ASCII
lower-casing, comparison by code points, digits left as they are. -/
def sampleHost : Host :=
  { toLowerCase := fun s => s.map Char.toLower,
    localeCompare := fun a b => if a = b then 0 else if a < b then -1 else 1,
    huNumber := fun s => s }

/-- The spec's "parses as a number" for a source field: the field is there and
`Number` of its text, white space removed, is not `NaN`. -/
def fieldNumber (f : Option JSString) : Option JSNumber :=
  f.bind (fun s => stringToNumber (removeWhitespace s))

/-- The spec's `price_numeric`: the numeric value of the first field, in the order
`price_numeric`, `ar_indulo_huf`, that parses as a number, and 0 if none does. -/
def specPriceNumeric (row : Row) : JSNumber :=
  match fieldNumber (row.get "price_numeric".toList) with
  | some n => n
  | none =>
    match fieldNumber (row.get "ar_indulo_huf".toList) with
    | some n => n
    | none => JSNumber.fin 0

/-- The claim about the row parser, for given lines (the first is the header row,
the others are the data lines): one record per data line, in order; each record
maps the `i`-th header name to the `i`-th column of its line, or to the empty
string when the line has no such column; and the record has no other field, so
columns beyond the last header are dropped. -/
def RecordsFollow (lines : List JSString) (rows : List Row) : Prop :=
  rows.length = (lines.drop 1).length ∧
  ∀ j, j < (lines.drop 1).length →
    (∀ i, i < (splitTab (lines.headD [])).length →
      Row.get (rows.getD j []) ((splitTab (lines.headD [])).getD i [])
        = some (((splitTab ((lines.drop 1).getD j []))[i]?).getD [])) ∧
    (rows.getD j []).map Prod.fst = splitTab (lines.headD [])

/-- The claim's selection: the item has `cat` equal to `c` when a category is
selected, and its lower-cased title, description or category contains the
lower-cased search text when that text is not empty. -/
def specMatches (host : Host) (q c : JSString) (x : Item) : Prop :=
  (c ≠ [] → x.cat = c) ∧
  (host.toLowerCase q ≠ [] →
    (host.toLowerCase q <:+: host.toLowerCase x.title ∨
      host.toLowerCase q <:+: host.toLowerCase x.desc ∨
      host.toLowerCase q <:+: host.toLowerCase x.cat))

instance (host : Host) (q c : JSString) (x : Item) : Decidable (specMatches host q c x) := by
  unfold specMatches
  infer_instance

/-- What a consistent comparator, which `sort` requires and `localeCompare` is,
gives on strings: any two strings are comparable, and the order is transitive. -/
def ConsistentCompare (cmp : JSString → JSString → Int) : Prop :=
  (∀ a b, cmp a b ≤ 0 ∨ cmp b a ≤ 0) ∧ (∀ a b d, cmp a b ≤ 0 → cmp b d ≤ 0 → cmp a d ≤ 0)

/-! ## Definitions used in the proofs -/

/-- The units of one encoded code point. -/
def charToks (c : Char) : List PctTok :=
  if uriUnreserved c then [PctTok.lit c] else (utf8Encode c.toNat).map PctTok.octet

/-- In any context, `x` decodes to `y`. -/
def DecodesTo (x y : JSString) : Prop :=
  ∀ rest, decodeURIComponent (x ++ rest) = (decodeURIComponent rest).map (fun r => y ++ r)

/-! # Theorems -/

/-! ## Lemmas: path resolver -/

theorem stripLeadingDotSlash_isCleaned (p : JSString) :
    IsCleaned p (stripLeadingDotSlash p) := by
  unfold IsCleaned stripLeadingDotSlash
  match p with
  | [] => simp
  | [a] =>
    by_cases h : a = '/'
    · subst h; simp
    · simp [h]
  | a :: b :: r =>
    by_cases h1 : a = '.' ∧ b = '/'
    · obtain ⟨ha, hb⟩ := h1; subst ha; subst hb; simp
    · by_cases h2 : a = '/'
      · subst h2; simp
      · simp [h2]
        right
        exact ⟨fun ha hb => h1 ⟨ha, hb⟩, fun ha hb => (h1 ⟨ha, hb⟩).elim⟩

theorem encodePathSegments_eq (c : JSString) :
    encodePathSegments c = encodeSegments c := by
  unfold encodePathSegments encodeSegments
  cases c with
  | nil => decide
  | cons a r => simp

theorem orEmpty_some (p : JSString) : orEmpty (some p) = p := by
  cases p <;> simp [orEmpty]

theorem hexVal_hexDigit (d : Nat) (h : d < 16) : hexVal (hexDigit d) = some d := by
  interval_cases d <;> decide

theorem hexDigit_ne_slash (d : Nat) (h : d < 16) : hexDigit d ≠ '/' := by
  interval_cases d <;> decide

theorem hexDigit_ne_pct (d : Nat) (h : d < 16) : hexDigit d ≠ '%' := by
  interval_cases d <;> decide

theorem utf8Encode_lt (c : Char) : ∀ b ∈ utf8Encode c.toNat, b < 256 := by
  have hv : c.toNat < 0xD800 ∨ (0xDFFF < c.toNat ∧ c.toNat < 0x110000) := c.valid
  intro b hb
  unfold utf8Encode at hb
  split_ifs at hb <;> simp at hb <;> omega

theorem uriUnreserved_ne_pct (c : Char) (h : uriUnreserved c = true) : c ≠ '%' := by
  intro hc; subst hc; revert h; decide

theorem uriUnreserved_ne_slash (c : Char) (h : uriUnreserved c = true) : c ≠ '/' := by
  intro hc; subst hc; revert h; decide

theorem slash_not_mem_pctEncodeByte (b : Nat) (hb : b < 256) : '/' ∉ pctEncodeByte b := by
  have h1 := hexDigit_ne_slash (b / 16) (by omega)
  have h2 := hexDigit_ne_slash (b % 16) (by omega)
  simp [pctEncodeByte, Ne.symm h1, Ne.symm h2]

theorem slash_not_mem_encodeChar (c : Char) : '/' ∉ encodeChar c := by
  unfold encodeChar
  split_ifs with h
  · simp [Ne.symm (uriUnreserved_ne_slash c h)]
  · simp only [List.mem_flatMap, not_exists, not_and]
    intro b hb
    exact slash_not_mem_pctEncodeByte b (utf8Encode_lt c b hb)

theorem slash_not_mem_encodeURIComponent (s : JSString) : '/' ∉ encodeURIComponent s := by
  unfold encodeURIComponent
  simp only [List.mem_flatMap, not_exists, not_and]
  intro c _
  exact slash_not_mem_encodeChar c

/-! ## Lemmas: percent-decoding undoes percent-encoding -/

theorem pctTokens_lit (c : Char) (hc : c ≠ '%') (rest : List Char) :
    pctTokens (c :: rest) = (pctTokens rest).map (fun ts => PctTok.lit c :: ts) := by
  rw [pctTokens.eq_def]
  simp only [hc, if_false]
  cases pctTokens rest <;> rfl

theorem pctTokens_pctEncodeByte (b : Nat) (hb : b < 256) (rest : List Char) :
    pctTokens (pctEncodeByte b ++ rest)
      = (pctTokens rest).map (fun ts => PctTok.octet b :: ts) := by
  have h1 := hexVal_hexDigit (b / 16) (by omega)
  have h2 := hexVal_hexDigit (b % 16) (by omega)
  have hb2 : 16 * (b / 16) + b % 16 = b := by omega
  simp only [pctEncodeByte, List.cons_append, List.nil_append]
  rw [pctTokens.eq_def]
  simp only [if_true, h1, h2]
  cases pctTokens rest <;> simp [hb2]

theorem pctTokens_octets (bs : List Nat) (hbs : ∀ b ∈ bs, b < 256) (rest : List Char) :
    pctTokens (bs.flatMap pctEncodeByte ++ rest)
      = (pctTokens rest).map (fun ts => bs.map PctTok.octet ++ ts) := by
  induction bs with
  | nil => simp
  | cons b bs ih =>
    have hb : b < 256 := hbs b (List.mem_cons_self _ _)
    have ih2 := ih (fun x hx => hbs x (List.mem_cons_of_mem _ hx))
    simp only [List.flatMap_cons, List.append_assoc, List.map_cons, List.cons_append]
    rw [pctTokens_pctEncodeByte b hb, ih2]
    cases pctTokens rest <;> rfl


theorem pctTokens_encodeChar (c : Char) (rest : List Char) :
    pctTokens (encodeChar c ++ rest)
      = (pctTokens rest).map (fun ts => charToks c ++ ts) := by
  unfold encodeChar charToks
  split_ifs with h
  · simpa using pctTokens_lit c (uriUnreserved_ne_pct c h) rest
  · exact pctTokens_octets _ (utf8Encode_lt c) rest

theorem utf8Go_emit (tok : PctTok) (c : Char) (ts : List PctTok) (st : Utf8State)
    (h : utf8Step st tok = Utf8Step.emit c) :
    utf8Go (tok :: ts) st = (utf8Go ts Utf8State.idle).map (fun r => c :: r) := by
  rw [utf8Go, h]
  cases utf8Go ts Utf8State.idle <;> rfl

theorem utf8Go_more (tok : PctTok) (k : Nat) (os : List Nat) (ts : List PctTok) (st : Utf8State)
    (h : utf8Step st tok = Utf8Step.more k os) :
    utf8Go (tok :: ts) st = utf8Go ts (Utf8State.pending k os) := by
  rw [utf8Go, h]

theorem isCont_low (k : Nat) (h : k < 64) : isCont (0x80 + k) = true := by
  simp only [isCont, decide_eq_true_eq]; omega

theorem utf8Value_two (n : Nat) (h1 : 0x80 ≤ n) (h2 : n < 0x800) :
    utf8Value [0xC0 + n / 64, 0x80 + n % 64] = some n := by
  have e : (0xC0 + n / 64 - 0xC0) * 64 + (0x80 + n % 64 - 0x80) = n := by omega
  have c1 := isCont_low (n % 64) (by omega)
  unfold utf8Value
  dsimp only
  rw [e, c1]
  simp [h1]

theorem utf8Value_three (n : Nat) (h1 : 0x800 ≤ n) (h2 : n < 0x10000)
    (hs : n < 0xD800 ∨ (0xDFFF < n ∧ n < 0x110000)) :
    utf8Value [0xE0 + n / 4096, 0x80 + n / 64 % 64, 0x80 + n % 64] = some n := by
  have e : (0xE0 + n / 4096 - 0xE0) * 4096 + (0x80 + n / 64 % 64 - 0x80) * 64
      + (0x80 + n % 64 - 0x80) = n := by omega
  have c1 := isCont_low (n / 64 % 64) (by omega)
  have c2 := isCont_low (n % 64) (by omega)
  have c3 : isScalar n = true := by simp only [isScalar, decide_eq_true_eq]; exact hs
  unfold utf8Value
  dsimp only
  rw [e, c1, c2, c3]
  simp [h1]

theorem utf8Value_four (n : Nat) (h1 : 0x10000 ≤ n)
    (hs : n < 0xD800 ∨ (0xDFFF < n ∧ n < 0x110000)) :
    utf8Value [0xF0 + n / 262144, 0x80 + n / 4096 % 64, 0x80 + n / 64 % 64, 0x80 + n % 64]
      = some n := by
  have e : (0xF0 + n / 262144 - 0xF0) * 262144 + (0x80 + n / 4096 % 64 - 0x80) * 4096
      + (0x80 + n / 64 % 64 - 0x80) * 64 + (0x80 + n % 64 - 0x80) = n := by omega
  have c0 := isCont_low (n / 4096 % 64) (by omega)
  have c1 := isCont_low (n / 64 % 64) (by omega)
  have c2 := isCont_low (n % 64) (by omega)
  have c3 : isScalar n = true := by simp only [isScalar, decide_eq_true_eq]; exact hs
  unfold utf8Value
  dsimp only
  rw [e, c0, c1, c2, c3]
  simp [h1]

theorem utf8Step_lead2 (b : Nat) (h0 : 0xC0 ≤ b) (h : b < 0xE0) :
    utf8Step Utf8State.idle (PctTok.octet b) = Utf8Step.more 1 [b] := by
  have g1 : ¬ (b < 0x80) := by omega
  have g2 : ¬ (b < 0xC0) := by omega
  simp only [utf8Step, g1, g2, h, if_true, if_false]

theorem utf8Step_lead3 (b : Nat) (h0 : 0xE0 ≤ b) (h : b < 0xF0) :
    utf8Step Utf8State.idle (PctTok.octet b) = Utf8Step.more 2 [b] := by
  have g1 : ¬ (b < 0x80) := by omega
  have g2 : ¬ (b < 0xC0) := by omega
  have g3 : ¬ (b < 0xE0) := by omega
  simp only [utf8Step, g1, g2, g3, h, if_true, if_false]

theorem utf8Step_lead4 (b : Nat) (h0 : 0xF0 ≤ b) (h : b < 0xF8) :
    utf8Step Utf8State.idle (PctTok.octet b) = Utf8Step.more 3 [b] := by
  have g1 : ¬ (b < 0x80) := by omega
  have g2 : ¬ (b < 0xC0) := by omega
  have g3 : ¬ (b < 0xE0) := by omega
  have g4 : ¬ (b < 0xF0) := by omega
  simp only [utf8Step, g1, g2, g3, g4, h, if_true, if_false]

theorem utf8Step_last (os : List Nat) (b cp : Nat) (h : utf8Value (os ++ [b]) = some cp) :
    utf8Step (Utf8State.pending 1 os) (PctTok.octet b) = Utf8Step.emit (Char.ofNat cp) := by
  simp only [utf8Step, le_refl, if_true, h]

theorem utf8Step_mid (k : Nat) (os : List Nat) (b : Nat) (hk : 2 ≤ k) :
    utf8Step (Utf8State.pending k os) (PctTok.octet b)
      = Utf8Step.more (k - 1) (os ++ [b]) := by
  have g : ¬ (k ≤ 1) := by omega
  simp only [utf8Step, g, if_false]

theorem utf8Chars_charToks (c : Char) (ts : List PctTok) :
    utf8Chars (charToks c ++ ts) = (utf8Chars ts).map (fun r => c :: r) := by
  have hv : c.toNat < 0xD800 ∨ (0xDFFF < c.toNat ∧ c.toNat < 0x110000) := c.valid
  unfold utf8Chars charToks
  split_ifs with h
  · exact utf8Go_emit _ c ts _ rfl
  · unfold utf8Encode
    split_ifs with h1 h2 h3
    · refine utf8Go_emit _ c ts _ ?_
      simp [utf8Step, h1]
    · simp only [List.map_cons, List.map_nil, List.cons_append, List.nil_append]
      rw [utf8Go_more _ 1 [0xC0 + c.toNat / 64] _ _ (utf8Step_lead2 _ (by omega) (by omega))]
      refine utf8Go_emit _ c ts _ ?_
      rw [utf8Step_last _ _ c.toNat (utf8Value_two _ (by omega) h2), Char.ofNat_toNat]
    · simp only [List.map_cons, List.map_nil, List.cons_append, List.nil_append]
      rw [utf8Go_more _ 2 [0xE0 + c.toNat / 4096] _ _ (utf8Step_lead3 _ (by omega) (by omega))]
      rw [utf8Go_more _ 1 _ _ _ (utf8Step_mid 2 _ _ (le_refl _))]
      refine utf8Go_emit _ c ts _ ?_
      rw [utf8Step_last _ _ c.toNat (utf8Value_three _ (by omega) h3 hv), Char.ofNat_toNat]
    · simp only [List.map_cons, List.map_nil, List.cons_append, List.nil_append]
      rw [utf8Go_more _ 3 [0xF0 + c.toNat / 262144] _ _
        (utf8Step_lead4 _ (by omega) (by omega))]
      rw [utf8Go_more _ 2 _ _ _ (utf8Step_mid 3 _ _ (by omega))]
      rw [utf8Go_more _ 1 _ _ _ (utf8Step_mid 2 _ _ (le_refl _))]
      refine utf8Go_emit _ c ts _ ?_
      rw [utf8Step_last _ _ c.toNat (utf8Value_four _ (by omega) hv), Char.ofNat_toNat]

theorem decodesTo_nil : DecodesTo [] [] := by
  intro rest
  cases h : decodeURIComponent rest <;> simp [h]

theorem decodesTo_append {x y x2 y2 : JSString} (h1 : DecodesTo x y) (h2 : DecodesTo x2 y2) :
    DecodesTo (x ++ x2) (y ++ y2) := by
  intro rest
  rw [List.append_assoc, h1, h2]
  cases decodeURIComponent rest <;> simp

theorem decodesTo_encodeChar (c : Char) : DecodesTo (encodeChar c) [c] := by
  intro rest
  unfold decodeURIComponent
  rw [pctTokens_encodeChar]
  cases pctTokens rest with
  | none => rfl
  | some ts =>
    simp only [Option.map_some']
    rw [utf8Chars_charToks]
    rfl

theorem decodesTo_lit (c : Char) (hc : c ≠ '%') : DecodesTo [c] [c] := by
  intro rest
  unfold decodeURIComponent
  rw [List.singleton_append, pctTokens_lit c hc]
  cases pctTokens rest with
  | none => rfl
  | some ts =>
    simp only [Option.map_some']
    unfold utf8Chars
    rw [utf8Go_emit (PctTok.lit c) c ts Utf8State.idle rfl]
    rfl

theorem decodesTo_encodeURIComponent (s : JSString) : DecodesTo (encodeURIComponent s) s := by
  induction s with
  | nil => exact decodesTo_nil
  | cons c s ih =>
    have h := decodesTo_append (decodesTo_encodeChar c) ih
    simpa [encodeURIComponent] using h

theorem joinSlash_cons_cons (a b : JSString) (l : List JSString) :
    joinSlash (a :: b :: l) = a ++ ('/' :: joinSlash (b :: l)) := by
  simp [joinSlash, List.intercalate]

theorem decodesTo_joinSlash (segs : List JSString) :
    DecodesTo (joinSlash (segs.map encodeURIComponent)) (joinSlash segs) := by
  induction segs with
  | nil => exact decodesTo_nil
  | cons a l ih =>
    cases l with
    | nil =>
      have h := decodesTo_encodeURIComponent a
      simpa [joinSlash, List.intercalate] using h
    | cons b l =>
      rw [List.map_cons, List.map_cons, joinSlash_cons_cons, joinSlash_cons_cons]
      have h1 := decodesTo_encodeURIComponent a
      have h2 : DecodesTo ['/'] ['/'] := decodesTo_lit '/' (by decide)
      have h3 := decodesTo_append h1 (decodesTo_append h2 ih)
      simpa using h3

theorem decodesTo_decode {x y : JSString} (h : DecodesTo x y) :
    decodeURIComponent x = some y := by
  have h0 := h []
  have e : decodeURIComponent [] = some [] := by decide
  simpa [e] using h0

theorem joinSlash_splitSlash (c : JSString) : joinSlash (splitSlash c) = c :=
  List.intercalate_splitOn c '/'

theorem decode_encodeSegments (c : JSString) :
    decodeURIComponent (encodeSegments c) = some c := by
  have h := decodesTo_decode (decodesTo_joinSlash (splitSlash c))
  rw [joinSlash_splitSlash] at h
  exact h

theorem splitSlash_encodeSegments (c : JSString) :
    splitSlash (encodeSegments c) = (splitSlash c).map encodeURIComponent := by
  unfold encodeSegments splitSlash joinSlash
  apply List.splitOn_intercalate
  · intro l hl
    obtain ⟨s, _, rfl⟩ := List.mem_map.mp hl
    exact slash_not_mem_encodeURIComponent s
  · intro h
    have h2 := List.map_eq_nil_iff.mp h
    exact List.splitOnP_ne_nil _ _ h2

/-! ## Path resolver: claims C1, C3, C4 -/

theorem isCleaned_unique (p c : JSString) (h : IsCleaned p c) :
    c = stripLeadingDotSlash p := by
  have hs := stripLeadingDotSlash_isCleaned p
  unfold IsCleaned at h hs
  rcases h with h | h | ⟨h1, h2, h3⟩
  · subst h; simp [stripLeadingDotSlash]
  · subst h
    cases c with
    | nil => simp [stripLeadingDotSlash]
    | cons a r => simp [stripLeadingDotSlash]
  · rcases hs with hs | hs | ⟨_, _, hs⟩
    · exact absurd hs (h1 _)
    · exact absurd hs (h2 _)
    · rw [hs, h3]

/-- C1. For every raw image path `p`, with `c` being `p` with a leading `./` or `/`
removed (there always is such a `c`) and `E` encoding each `/`-separated segment
and rejoining with `/`: `candidatesFor(p)` is a list of exactly five URLs, in
this order: `./` + E(c), `./` + c, `./site_out_new/` + E(c), `./images/` + E(c),
`/` + E(c). -/
theorem candidatesFor_five_in_order (p : JSString) :
    (∃ c, IsCleaned p c) ∧
    ∀ c, IsCleaned p c →
      (candidatesFor (some p)).length = 5 ∧
      candidatesFor (some p) =
        [ "./".toList ++ encodeSegments c,
          "./".toList ++ c,
          "./site_out_new/".toList ++ encodeSegments c,
          "./images/".toList ++ encodeSegments c,
          "/".toList ++ encodeSegments c ] := by
  refine ⟨⟨stripLeadingDotSlash p, stripLeadingDotSlash_isCleaned p⟩, ?_⟩
  intro c hc
  rw [isCleaned_unique p c hc]
  refine ⟨rfl, ?_⟩
  simp only [candidatesFor, orEmpty_some, encodePathSegments_eq]

/-- Witness for C1: a path with a leading `./`, a space and a non-ASCII letter. -/
theorem candidatesFor_five_in_order_witness :
    candidatesFor (some "./a b/é.jpg".toList) =
      [ "./".toList ++ encodeSegments "a b/é.jpg".toList,
        "./".toList ++ "a b/é.jpg".toList,
        "./site_out_new/".toList ++ encodeSegments "a b/é.jpg".toList,
        "./images/".toList ++ encodeSegments "a b/é.jpg".toList,
        "/".toList ++ encodeSegments "a b/é.jpg".toList ] :=
  ((candidatesFor_five_in_order "./a b/é.jpg".toList).2 "a b/é.jpg".toList (Or.inl rfl)).2

/-- C3. For every raw image path `p` with cleaned path `c`: percent-decoding the
first candidate of `candidatesFor(p)` gives `./` followed by `c`; decoding undoes
`encodePathSegments` on `c`; the encoded form splits on `/` into exactly the
encodings of the segments of `c`, and no segment's encoding contains `/`. -/
theorem first_candidate_decodes_to_cleaned (p : JSString) :
    ∀ c, IsCleaned p c →
      ((candidatesFor (some p)).head?.bind decodeURIComponent = some ("./".toList ++ c)) ∧
      decodeURIComponent (encodePathSegments c) = some c ∧
      splitSlash (encodePathSegments c) = (splitSlash c).map encodeURIComponent ∧
      (∀ seg ∈ splitSlash c, '/' ∉ encodeURIComponent seg) := by
  intro c hc
  have hcs := isCleaned_unique p c hc
  refine ⟨?_, ?_, ?_, ?_⟩
  · simp only [candidatesFor, orEmpty_some, encodePathSegments_eq, List.head?_cons,
      Option.some_bind]
    have h1 : DecodesTo "./".toList "./".toList :=
      decodesTo_append (decodesTo_lit '.' (by decide)) (decodesTo_lit '/' (by decide))
    have h2 := decodesTo_append h1 (decodesTo_joinSlash (splitSlash (stripLeadingDotSlash p)))
    rw [joinSlash_splitSlash] at h2
    rw [hcs]
    exact decodesTo_decode h2
  · rw [encodePathSegments_eq]; exact decode_encodeSegments _
  · rw [encodePathSegments_eq]; exact splitSlash_encodeSegments _
  · intro seg _
    exact slash_not_mem_encodeURIComponent seg

/-- Witness for C3: the first candidate of `./a b/é.jpg` decodes to the path
itself, and its encoded form has the same two segments. -/
theorem first_candidate_decodes_to_cleaned_witness :
    (candidatesFor (some "./a b/é.jpg".toList)).head?.bind decodeURIComponent
      = some ("./".toList ++ "a b/é.jpg".toList) ∧
    splitSlash (encodePathSegments "a b/é.jpg".toList)
      = (splitSlash "a b/é.jpg".toList).map encodeURIComponent :=
  ⟨((first_candidate_decodes_to_cleaned "./a b/é.jpg".toList) "a b/é.jpg".toList
      (Or.inl rfl)).1,
   ((first_candidate_decodes_to_cleaned "./a b/é.jpg".toList) "a b/é.jpg".toList
      (Or.inl rfl)).2.2.1⟩

/-- C4, as the spec states it, fails: for the empty path and for a missing path
`candidatesFor` returns a list that is not empty (and an array is never falsy). -/
theorem candidatesFor_empty_not_empty :
    candidatesFor (some []) ≠ [] ∧ candidatesFor none ≠ [] := by
  decide

/-! ## Fallback loader: claim C2 -/

theorem hoverTick_iterate_idx (k : Nat) (s : HoverState) (j : Nat) (h : s.hoverIdx < k) :
    ((hoverTick k)^[j] s).hoverIdx = (s.hoverIdx + j) % k := by
  induction j with
  | zero => simp [Nat.mod_eq_of_lt h]
  | succ j ih =>
    rw [Function.iterate_succ_apply', hoverTick]
    simp only [ih]
    rw [Nat.mod_add_mod, Nat.add_assoc]

theorem hoverTick_iterate_timer (k : Nat) (s : HoverState) (j : Nat) :
    ((hoverTick k)^[j] s).hoverTimer = s.hoverTimer := by
  induction j with
  | zero => rfl
  | succ j ih => rw [Function.iterate_succ_apply', hoverTick]; exact ih

theorem startHover_idx (k : Nat) (w : Timers) (s : HoverState) (hk : 1 ≤ k) :
    (startHover k w s).2.hoverIdx = 1 % k := by
  have h0 : k ≠ 0 := by omega
  simp [startHover, h0]

/-- C5. For an item with `k ≥ 1` images, pointer-enter sets the hover index to
`1 mod k` and starts a timer; `k` ticks bring the index back to that value, no
smaller positive number of ticks does, and the index stays in `0..k-1` after any
number of ticks; for `k = 1` the index is 0 after pointer-enter and after every
tick; for `k = 0` pointer-enter starts no timer and changes nothing. -/
theorem hover_cycle_period (k : Nat) (w : Timers) (s : HoverState) :
    (1 ≤ k →
      (startHover k w s).2.hoverIdx = 1 % k ∧
      (startHover k w s).2.hoverTimer ≠ none ∧
      ((hoverTick k)^[k] (startHover k w s).2).hoverIdx = (startHover k w s).2.hoverIdx ∧
      (∀ j, 0 < j → j < k →
        ((hoverTick k)^[j] (startHover k w s).2).hoverIdx ≠ (startHover k w s).2.hoverIdx) ∧
      (∀ j, ((hoverTick k)^[j] (startHover k w s).2).hoverIdx < k)) ∧
    (k = 1 → ∀ j, ((hoverTick k)^[j] (startHover k w s).2).hoverIdx = 0) ∧
    (k = 0 → startHover k w s = (w, s)) := by
  refine ⟨?_, ?_, ?_⟩
  · intro hk
    have hidx := startHover_idx k w s hk
    have hlt : (startHover k w s).2.hoverIdx < k := by
      rw [hidx]; exact Nat.mod_lt _ (by omega)
    refine ⟨hidx, ?_, ?_, ?_, ?_⟩
    · have h0 : k ≠ 0 := by omega
      simp [startHover, h0]
    · rw [hoverTick_iterate_idx k _ k hlt, Nat.add_mod_right, Nat.mod_eq_of_lt hlt]
    · intro j hj1 hj2 heq
      rw [hoverTick_iterate_idx k _ j hlt, hidx] at heq
      have h1 : (1 % k + j) % k = (1 + j) % k := Nat.mod_add_mod 1 k j
      rw [h1] at heq
      have h2 : (1 + j) ≡ (1 + 0) [MOD k] := by
        simpa [Nat.ModEq] using heq
      have h3 : j ≡ 0 [MOD k] := Nat.ModEq.add_left_cancel' 1 h2
      have h4 : k ∣ j := (Nat.modEq_zero_iff_dvd).mp h3
      have h5 := Nat.le_of_dvd hj1 h4
      omega
    · intro j
      rw [hoverTick_iterate_idx k _ j hlt]
      exact Nat.mod_lt _ (by omega)
  · intro hk j
    subst hk
    have hidx := startHover_idx 1 w s (le_refl _)
    rw [hoverTick_iterate_idx 1 _ j (by rw [hidx]; decide)]
    exact Nat.mod_one _
  · intro hk
    subst hk
    rfl

/-- Witness for C5: an item with three images, entered from the idle state. -/
theorem hover_cycle_period_witness :
    (startHover 3 ⟨0, []⟩ ⟨none, 0⟩).2.hoverIdx = 1 % 3 ∧
    ((hoverTick 3)^[3] (startHover 3 ⟨0, []⟩ ⟨none, 0⟩).2).hoverIdx
      = (startHover 3 ⟨0, []⟩ ⟨none, 0⟩).2.hoverIdx ∧
    (∀ j, 0 < j → j < 3 →
      ((hoverTick 3)^[j] (startHover 3 ⟨0, []⟩ ⟨none, 0⟩).2).hoverIdx
        ≠ (startHover 3 ⟨0, []⟩ ⟨none, 0⟩).2.hoverIdx) ∧
    (∀ j, ((hoverTick 1)^[j] (startHover 1 ⟨0, []⟩ ⟨none, 0⟩).2).hoverIdx = 0) ∧
    startHover 0 ⟨0, []⟩ ⟨none, 0⟩ = (⟨0, []⟩, ⟨none, 0⟩) := by
  have h3 := (hover_cycle_period 3 ⟨0, []⟩ ⟨none, 0⟩).1 (by decide)
  have h1 := (hover_cycle_period 1 ⟨0, []⟩ ⟨none, 0⟩).2.1 rfl
  have h0 := (hover_cycle_period 0 ⟨0, []⟩ ⟨none, 0⟩).2.2 rfl
  exact ⟨h3.1, h3.2.2.1, h3.2.2.2.1, h1, h0⟩

/-! ## Lightbox: claims C6, C7 -/

theorem openLightbox_LB (images : List JSString) (z : Int) (title : JSString) (s : Lightbox)
    (hn : images ≠ []) :
    (openLightbox images (some z) title s).LB
      = { idx := some (Int.tmod (z + images.length) images.length),
          images := images, title := title } := by
  have h0 : (images.length : Int) ≠ 0 := by
    have := List.length_pos.mpr hn
    omega
  simp [openLightbox, jsRem, jsAdd, h0]

theorem openLightbox_idx_of_ge (images : List JSString) (z : Int) (title : JSString)
    (s : Lightbox) (hn : images ≠ []) (hz : -(images.length : Int) ≤ z) :
    (openLightbox images (some z) title s).LB
      = { idx := some (z % images.length), images := images, title := title } := by
  rw [openLightbox_LB images z title s hn]
  rw [Int.tmod_eq_emod (by omega) (by omega), Int.add_emod_self]

theorem lbNext_LB (images : List JSString) (title : JSString) (hn : images ≠ [])
    (t : Lightbox) (m : Int) (hm : 0 ≤ m)
    (ht : t.LB = { idx := some m, images := images, title := title }) :
    (lbNext t).LB
      = { idx := some ((m + 1) % images.length), images := images, title := title } := by
  unfold lbNext
  rw [ht]
  simp only [jsAdd]
  exact openLightbox_idx_of_ge images _ title _ hn (by omega)

theorem lbNext_iterate (images : List JSString) (title : JSString) (hn : images ≠ [])
    (s : Lightbox) (z : Int) (hz : 0 ≤ z)
    (hs : s.LB = { idx := some z, images := images, title := title }) (j : Nat) :
    (lbNext^[j] s).LB
        = { idx := some ((z + j) % images.length), images := images, title := title } ∨
      (j = 0 ∧ (lbNext^[j] s).LB = s.LB) := by
  have hpos : (0 : Int) < images.length := by
    have := List.length_pos.mpr hn
    omega
  induction j with
  | zero => right; exact ⟨rfl, rfl⟩
  | succ j ih =>
    left
    rw [Function.iterate_succ_apply']
    rcases ih with h | ⟨hj, h⟩
    · rw [lbNext_LB images title hn _ _ (Int.emod_nonneg (z + j) (ne_of_gt hpos)) h]
      simp only [Int.emod_add_emod]
      push_cast
      rw [Int.add_assoc]
    · subst hj
      rw [lbNext_LB images title hn _ z hz (h.trans hs)]
      simp

/-- C6. For every image list of length `k ≥ 1` and every index `0 ≤ i < k`:
opening the lightbox at `i` and then navigating "next" `k` times leaves
`LB.idx = i`; navigating "prev" once from index 0 leaves `LB.idx = k - 1`; the
image list and the title are unchanged by navigation. -/
theorem lightbox_navigation_cyclic (images : List JSString) (title : JSString)
    (s : Lightbox) (i : Nat) (hk : 1 ≤ images.length) (hi : i < images.length) :
    (lbNext^[images.length] (openLightbox images (some (i : Int)) title s)).LB
      = { idx := some (i : Int), images := images, title := title } ∧
    (lbPrev (openLightbox images (some 0) title s)).LB
      = { idx := some ((images.length : Int) - 1), images := images, title := title } ∧
    (∀ j, (lbNext^[j] (openLightbox images (some (i : Int)) title s)).LB.images = images ∧
      (lbNext^[j] (openLightbox images (some (i : Int)) title s)).LB.title = title) := by
  have hn : images ≠ [] := List.length_pos.mp (by omega)
  have hopen : (openLightbox images (some (i : Int)) title s).LB
      = { idx := some (i : Int), images := images, title := title } := by
    rw [openLightbox_idx_of_ge images _ title s hn (by omega)]
    rw [Int.emod_eq_of_lt (by omega) (by omega)]
  refine ⟨?_, ?_, ?_⟩
  · rcases lbNext_iterate images title hn _ (i : Int) (by omega) hopen images.length with h | ⟨h, _⟩
    · rw [h, Int.add_emod_self, Int.emod_eq_of_lt (by omega) (by omega)]
    · omega
  · have h0 : (openLightbox images (some 0) title s).LB
        = { idx := some 0, images := images, title := title } := by
      rw [openLightbox_idx_of_ge images _ title s hn (by omega)]
      simp
    unfold lbPrev
    rw [h0]
    simp only [jsAdd]
    rw [openLightbox_idx_of_ge images _ title _ hn (by omega)]
    have e : ((0 : Int) + -1) % (images.length : Int) = (images.length : Int) - 1 := by
      have h1 : ((0 : Int) + -1) = ((images.length : Int) - 1) - images.length := by omega
      rw [h1, Int.emod_sub_cancel, Int.emod_eq_of_lt (by omega) (by omega)]
    rw [e]
  · intro j
    rcases lbNext_iterate images title hn _ (i : Int) (by omega) hopen j with h | ⟨_, h⟩
    · rw [h]; exact ⟨rfl, rfl⟩
    · rw [h, hopen]; exact ⟨rfl, rfl⟩

/-- Witness for C6: three images, opened at index 1. -/
theorem lightbox_navigation_cyclic_witness :
    (lbNext^[3] (openLightbox ["a".toList, "b".toList, "c".toList] (some 1) "T".toList
        ⟨⟨some 0, [], []⟩, false, [], ⟨none, false⟩, none⟩)).LB
      = { idx := some 1, images := ["a".toList, "b".toList, "c".toList], title := "T".toList } ∧
    (lbPrev (openLightbox ["a".toList, "b".toList, "c".toList] (some 0) "T".toList
        ⟨⟨some 0, [], []⟩, false, [], ⟨none, false⟩, none⟩)).LB
      = { idx := some 2, images := ["a".toList, "b".toList, "c".toList], title := "T".toList } := by
  have h := lightbox_navigation_cyclic ["a".toList, "b".toList, "c".toList] "T".toList
    ⟨⟨some 0, [], []⟩, false, [], ⟨none, false⟩, none⟩ 1 (by decide) (by decide)
  exact ⟨h.1, h.2.1⟩

theorem toNumber_zero_literal : toNumber (Val.num 0) = JSNumber.fin 0 := by
  have h : parseNumericLiteral (removeWhitespace (Val.num 0).toJSString)
      = some (NumLit.decimal false 0 0) := by decide
  rw [toNumber, stringToNumber, h]
  simp [NumLit.value]

theorem toNumber_str (s : JSString) :
    toNumber (Val.str s) = (fieldNumber (some s)).getD (JSNumber.fin 0) := by
  unfold toNumber fieldNumber
  simp only [Val.toJSString, Option.some_bind]
  cases stringToNumber (removeWhitespace s) <;> rfl

theorem val_or_of_truthy (s : JSString) (hs : s ≠ []) (b : Val) :
    (Val.str s).or b = Val.str s := by
  cases s with
  | nil => exact absurd rfl hs
  | cons c r => rfl

theorem val_or_of_absent (a : Option JSString) (h : a = none ∨ a = some []) (b : Val) :
    (Val.ofOption a).or b = b := by
  rcases h with h | h <;> subst h <;> rfl

/-- C9, as the spec states it, fails: with `price_numeric = "abc"` (not a number)
and `ar_indulo_huf = "1000"` the item's `price_numeric` is 0, whereas the first
field that parses as a number gives 1000. -/
theorem toItem_price_not_first_parsing :
    (toItem sampleHost [("price_numeric".toList, "abc".toList),
        ("ar_indulo_huf".toList, "1000".toList)]).price_numeric = JSNumber.fin 0 ∧
    specPriceNumeric [("price_numeric".toList, "abc".toList),
        ("ar_indulo_huf".toList, "1000".toList)] = JSNumber.fin 1000 ∧
    (toItem sampleHost [("price_numeric".toList, "abc".toList),
        ("ar_indulo_huf".toList, "1000".toList)]).price_numeric
      ≠ specPriceNumeric [("price_numeric".toList, "abc".toList),
        ("ar_indulo_huf".toList, "1000".toList)] := by
  have h1 : (toItem sampleHost [("price_numeric".toList, "abc".toList),
        ("ar_indulo_huf".toList, "1000".toList)]).price_numeric = JSNumber.fin 0 := by
    decide
  have p1 : parseNumericLiteral (removeWhitespace "abc".toList) = none := by decide
  have p2 : parseNumericLiteral (removeWhitespace "1000".toList)
      = some (NumLit.decimal false 1000 0) := by decide
  have g1 : Row.get [("price_numeric".toList, "abc".toList),
        ("ar_indulo_huf".toList, "1000".toList)] "price_numeric".toList
      = some "abc".toList := by decide
  have g2 : Row.get [("price_numeric".toList, "abc".toList),
        ("ar_indulo_huf".toList, "1000".toList)] "ar_indulo_huf".toList
      = some "1000".toList := by decide
  have h2 : specPriceNumeric [("price_numeric".toList, "abc".toList),
        ("ar_indulo_huf".toList, "1000".toList)] = JSNumber.fin 1000 := by
    unfold specPriceNumeric fieldNumber
    rw [g1, g2]
    simp only [Option.some_bind, stringToNumber, p1, p2, Option.map_none', Option.map_some']
    simp [NumLit.value]
  refine ⟨h1, h2, ?_⟩
  rw [h1, h2]
  intro h
  have h3 : (0 : ℚ) = 1000 := JSNumber.fin.inj h
  norm_num at h3

/-- C9, amended. `price_numeric` is `toNumber` of the first non-empty field in the
order `price_numeric`, `ar_indulo_huf`: the numeric value of that field's text,
white space removed, or 0 when that text is not a number; it is 0 when both
fields are missing or empty.  A row with no price fields yields
`price_numeric = 0` and an empty `price_display`. -/
theorem toItem_price_numeric_first_nonempty (host : Host) (row : Row) :
    (∀ s, row.get "price_numeric".toList = some s → s ≠ [] →
      (toItem host row).price_numeric = (fieldNumber (some s)).getD (JSNumber.fin 0)) ∧
    ((row.get "price_numeric".toList = none ∨ row.get "price_numeric".toList = some []) →
      ∀ s, row.get "ar_indulo_huf".toList = some s → s ≠ [] →
        (toItem host row).price_numeric = (fieldNumber (some s)).getD (JSNumber.fin 0)) ∧
    ((row.get "price_numeric".toList = none ∨ row.get "price_numeric".toList = some []) →
      (row.get "ar_indulo_huf".toList = none ∨ row.get "ar_indulo_huf".toList = some []) →
        (toItem host row).price_numeric = JSNumber.fin 0) ∧
    (row.get "price_numeric".toList = none → row.get "ar_indulo_huf".toList = none →
      row.get "ar_gyors_huf".toList = none → row.get "price_display".toList = none →
        (toItem host row).price_numeric = JSNumber.fin 0 ∧
        (toItem host row).price_display = []) := by
  have hp : (toItem host row).price_numeric
      = toNumber (((Val.ofOption (row.get "price_numeric".toList)).or
          (Val.ofOption (row.get "ar_indulo_huf".toList))).or (Val.num 0)) := rfl
  refine ⟨?_, ?_, ?_, ?_⟩
  · intro s hs hne
    rw [hp, hs]
    simp only [Val.ofOption]
    rw [val_or_of_truthy s hne, val_or_of_truthy s hne, toNumber_str]
  · intro ha s hs hne
    rw [hp, val_or_of_absent _ ha, hs]
    simp only [Val.ofOption]
    rw [val_or_of_truthy s hne, toNumber_str]
  · intro ha hb
    rw [hp, val_or_of_absent _ ha, val_or_of_absent _ hb, toNumber_zero_literal]
  · intro ha hb hc hd
    constructor
    · rw [hp, val_or_of_absent _ (Or.inl ha), val_or_of_absent _ (Or.inl hb),
        toNumber_zero_literal]
    · simp only [toItem, hb, hc, hd]
      rfl

/-- Witness for C9 amended: a row whose `price_numeric` is `"abc"` takes that
field (value 0), and the empty row has price 0 and no price label. -/
theorem toItem_price_numeric_first_nonempty_witness :
    (toItem sampleHost [("price_numeric".toList, "abc".toList),
        ("ar_indulo_huf".toList, "1000".toList)]).price_numeric
      = (fieldNumber (some "abc".toList)).getD (JSNumber.fin 0) ∧
    ((toItem sampleHost []).price_numeric = JSNumber.fin 0 ∧
      (toItem sampleHost []).price_display = []) :=
  ⟨(toItem_price_numeric_first_nonempty sampleHost [("price_numeric".toList, "abc".toList),
      ("ar_indulo_huf".toList, "1000".toList)]).1 "abc".toList (by decide) (by decide),
   (toItem_price_numeric_first_nonempty sampleHost []).2.2.2 rfl rfl rfl rfl⟩

theorem toItem_images_nonempty (host : Host) (row : Row) :
    ∀ p ∈ (toItem host row).images, p ≠ [] := by
  intro p hp
  simp only [toItem, List.mem_filter] at hp
  intro h
  rw [h] at hp
  simp at hp

/-- C4, amended. For the empty raw path and for a missing path `candidatesFor`
returns the five bare base URLs `./`, `./`, `./site_out_new/`, `./images/`, `/`;
what is empty (falsy) for the empty path is the result of `encodePathSegments`.
"No image" is decided before the call: an item's image list never holds an empty
path. -/
theorem candidatesFor_empty_path :
    candidatesFor (some []) =
      ["./".toList, "./".toList, "./site_out_new/".toList, "./images/".toList, "/".toList] ∧
    candidatesFor none =
      ["./".toList, "./".toList, "./site_out_new/".toList, "./images/".toList, "/".toList] ∧
    encodePathSegments [] = [] ∧
    (∀ (host : Host) (row : Row), ∀ p ∈ (toItem host row).images, p ≠ []) :=
  ⟨by decide, by decide, by decide, toItem_images_nonempty⟩

/-- Witness for C4 amended: a row whose second image field is blank gives an image
list without an empty path. -/
theorem candidatesFor_empty_path_witness :
    ([] : JSString) ∉ (toItem sampleHost [("img1".toList, "a.jpg".toList),
        ("img2".toList, "  ".toList)]).images :=
  fun h => candidatesFor_empty_path.2.2.2 sampleHost
    [("img1".toList, "a.jpg".toList), ("img2".toList, "  ".toList)] [] h rfl

/-! ## Catalog loader: claim C10 -/

theorem row_get_append_of_none (acc : Row) (k h v : JSString) (hk : k ≠ h)
    (hacc : Row.get acc k = none) : Row.get (acc ++ [(h, v)]) k = none := by
  unfold Row.get at *
  induction acc with
  | nil =>
    have : (k == h) = false := by simpa using hk
    simp [List.lookup, this]
  | cons kv acc ih =>
    obtain ⟨a, b⟩ := kv
    simp only [List.cons_append, List.lookup_cons] at hacc ⊢
    cases hka : (k == a) with
    | true => rw [hka] at hacc; exact absurd hacc (by simp)
    | false => rw [hka] at hacc; simp only []; exact ih hacc

theorem parseRow_fold (cols : List JSString) :
    ∀ (hs : List JSString) (n : Nat) (acc : Row), hs.Nodup → "__proto__".toList ∉ hs →
      (∀ h ∈ hs, Row.get acc h = none) →
      (hs.enumFrom n).foldl (fun row ih => Row.set row ih.2 (cols.getD ih.1 [])) acc
        = acc ++ (hs.enumFrom n).map (fun ih => (ih.2, cols.getD ih.1 [])) := by
  intro hs
  induction hs with
  | nil => intro n acc _ _ _; simp
  | cons h hs ih =>
    intro n acc hnd hproto hacc
    have hne : h ≠ "__proto__".toList := fun e => hproto (e ▸ List.mem_cons_self _ _)
    have hget : Row.get acc h = none := hacc h (List.mem_cons_self _ _)
    have hset : Row.set acc h (cols.getD n []) = acc ++ [(h, cols.getD n [])] := by
      simp only [Row.set, hne, if_false, hget, Option.isSome_none, Bool.false_eq_true]
    rw [List.enumFrom_cons, List.foldl_cons, hset]
    rw [ih (n + 1) _ (List.nodup_cons.mp hnd).2
      (fun hmem => hproto (List.mem_cons_of_mem _ hmem))]
    · simp
    · intro k hk
      have hkh : k ≠ h := by
        intro e; subst e
        exact (List.nodup_cons.mp hnd).1 hk
      exact row_get_append_of_none acc k h _ hkh (hacc k (List.mem_cons_of_mem _ hk))

theorem parseRow_eq (headers : List JSString) (line : JSString) (hnd : headers.Nodup)
    (hproto : "__proto__".toList ∉ headers) :
    parseRow headers line
      = headers.enum.map (fun ih => (ih.2, (splitTab line).getD ih.1 [])) := by
  unfold parseRow List.enum
  have h := parseRow_fold (splitTab line) headers 0 [] hnd hproto (fun _ _ => rfl)
  simpa using h

theorem lookup_enumFrom (cols : List JSString) :
    ∀ (hs : List JSString) (n i : Nat), hs.Nodup → i < hs.length →
      List.lookup (hs.getD i [])
          ((hs.enumFrom n).map (fun ih => (ih.2, cols.getD ih.1 [])))
        = some (cols.getD (n + i) []) := by
  intro hs
  induction hs with
  | nil => intro n i _ hi; simp at hi
  | cons h hs ih =>
    intro n i hnd hi
    cases i with
    | zero => simp [List.enumFrom_cons, List.lookup]
    | succ i =>
      have hi2 : i < hs.length := by simpa using hi
      have hmem : hs.getD i [] ∈ hs := by
        rw [List.getD_eq_getElem hs [] hi2]
        exact List.getElem_mem hi2
      have hne : (hs.getD i [] == h) = false := by
        have : hs.getD i [] ≠ h := by
          intro e
          exact (List.nodup_cons.mp hnd).1 (e ▸ hmem)
        simpa using this
      simp only [List.getD_cons_succ, List.enumFrom_cons, List.map_cons, List.lookup_cons, hne]
      rw [ih (n + 1) i (List.nodup_cons.mp hnd).2 hi2]
      congr 2
      omega

theorem keys_enumFrom (cols : List JSString) :
    ∀ (hs : List JSString) (n : Nat),
      ((hs.enumFrom n).map (fun ih => (ih.2, cols.getD ih.1 []))).map Prod.fst = hs := by
  intro hs
  induction hs with
  | nil => intro n; rfl
  | cons h hs ih =>
    intro n
    rw [List.enumFrom_cons, List.map_cons, List.map_cons, ih (n + 1)]

theorem recordsFollow_of_lines (lines : List JSString)
    (hnd : (splitTab (lines.headD [])).Nodup)
    (hproto : "__proto__".toList ∉ splitTab (lines.headD [])) :
    RecordsFollow lines ((lines.drop 1).map (parseRow (splitTab (lines.headD [])))) := by
  refine ⟨by simp, ?_⟩
  intro j hj
  have hrow : ((lines.drop 1).map (parseRow (splitTab (lines.headD [])))).getD j []
      = parseRow (splitTab (lines.headD [])) ((lines.drop 1).getD j []) := by
    rw [List.getD_eq_getElem _ _ (by simpa using hj), List.getD_eq_getElem _ _ hj]
    simp
  rw [hrow, parseRow_eq _ _ hnd hproto]
  constructor
  · intro i hi
    have h := lookup_enumFrom (splitTab ((lines.drop 1).getD j []))
      (splitTab (lines.headD [])) 0 i hnd hi
    unfold Row.get List.enum
    rw [h]
    simp [List.getD_eq_getElem?_getD]
  · exact keys_enumFrom _ _ 0

/-- C10, as the spec states it, fails in two ways.  On the lines of the text as
given: in `a<TAB>b<LF>1<TAB><SPACE>` the data line has a second column holding
one space, but `loadTSV` trims the whole text first, so the record maps `b` to
the empty string.  And for the header name `__proto__`: in
`__proto__<TAB>b<LF>1<TAB>2` the two names differ, but the record gets no field
of that name. -/
theorem loadTSV_untrimmed_counterexample :
    ((splitTab ((splitLines "a\tb\n1\t ".toList).headD [])).Nodup ∧
      ¬ RecordsFollow (splitLines "a\tb\n1\t ".toList) (loadTSV "a\tb\n1\t ".toList)) ∧
    ((splitTab ((splitLines "__proto__\tb\n1\t2".toList).headD [])).Nodup ∧
      ¬ RecordsFollow (splitLines "__proto__\tb\n1\t2".toList)
        (loadTSV "__proto__\tb\n1\t2".toList)) := by
  refine ⟨⟨by decide, ?_⟩, ⟨by decide, ?_⟩⟩
  · intro h
    have h1 := (h.2 0 (by decide)).1 1 (by decide)
    revert h1
    decide
  · intro h
    have h1 := (h.2 0 (by decide)).1 0 (by decide)
    revert h1
    decide

/-- C10, amended. For every text, take the lines of the text with its leading and
trailing white space removed (as `loadTSV` does): if the header row has distinct
field names, none of them `__proto__`, then `loadTSV` gives one record per data
line, in file order; each record maps the `i`-th header name to the `i`-th column
of its line when the line has more than `i` columns and to the empty string
otherwise; and it has no field besides the header names, so further columns are
ignored. -/
theorem loadTSV_records (txt : JSString)
    (hnd : (splitTab ((splitLines (jsTrim txt)).headD [])).Nodup)
    (hproto : "__proto__".toList ∉ splitTab ((splitLines (jsTrim txt)).headD [])) :
    RecordsFollow (splitLines (jsTrim txt)) (loadTSV txt) :=
  recordsFollow_of_lines (splitLines (jsTrim txt)) hnd hproto

/-- Witness for C10 amended: a header of three names, a full row, a short row and
a long row, with CR LF line ends and a trailing blank line. -/
theorem loadTSV_records_witness :
    RecordsFollow (splitLines (jsTrim "id\tcat\ttitle\r\n1\tx\ty\r\n2\r\n3\tp\tq\tr\r\n\r\n".toList))
      (loadTSV "id\tcat\ttitle\r\n1\tx\ty\r\n2\r\n3\tp\tq\tr\r\n\r\n".toList) :=
  loadTSV_records "id\tcat\ttitle\r\n1\tx\ty\r\n2\r\n3\tp\tq\tr\r\n\r\n".toList
    (by decide) (by decide)

/-! ## Filter and sort: claim C8 -/

theorem sortSign_sub_le_iff (a b : JSNumber) :
    sortSign (JSNumber.sub a b) ≤ 0 ↔ JSNumber.le a b := by
  cases a <;> cases b <;> simp [JSNumber.sub, sortSign, JSNumber.le]
  rename_i x y
  split_ifs with h1 h2
  · constructor
    · intro _; exact le_of_lt h1
    · intro _; decide
  · constructor
    · intro h; exact absurd h (by decide)
    · intro h; exact absurd h (not_le.mpr h2)
  · constructor
    · intro _; exact not_lt.mp h2
    · intro _; decide

theorem jsNumber_le_total (a b : JSNumber) : JSNumber.le a b ∨ JSNumber.le b a := by
  cases a <;> cases b <;> simp [JSNumber.le]
  exact le_total _ _

theorem jsNumber_le_trans (a b d : JSNumber) (h1 : JSNumber.le a b) (h2 : JSNumber.le b d) :
    JSNumber.le a d := by
  cases a <;> cases b <;> cases d <;> simp [JSNumber.le] at *
  exact le_trans h1 h2

theorem jsSort_perm {α : Type} (cmp : α → α → Int) (l : List α) : (jsSort cmp l).Perm l :=
  List.perm_insertionSort _ l

theorem jsSort_sorted {α : Type} (cmp : α → α → Int)
    (htot : ∀ a b, cmp a b ≤ 0 ∨ cmp b a ≤ 0)
    (htr : ∀ a b d, cmp a b ≤ 0 → cmp b d ≤ 0 → cmp a d ≤ 0) (l : List α) :
    (jsSort cmp l).Pairwise (fun a b => cmp a b ≤ 0) := by
  haveI : IsTotal α (fun a b => cmp a b ≤ 0) := ⟨htot⟩
  haveI : IsTrans α (fun a b => cmp a b ≤ 0) := ⟨htr⟩
  exact List.sorted_insertionSort (fun a b => cmp a b ≤ 0) l

theorem applySort_perm (host : Host) (v : JSString) (l : List Item) :
    (applySort host v l).Perm l := by
  unfold applySort
  simp only []
  split_ifs <;>
    first
    | exact List.Perm.refl _
    | exact jsSort_perm _ _
    | exact (jsSort_perm _ _).trans (jsSort_perm _ _)
    | exact (jsSort_perm _ _).trans ((jsSort_perm _ _).trans (jsSort_perm _ _))
    | exact (jsSort_perm _ _).trans
        ((jsSort_perm _ _).trans ((jsSort_perm _ _).trans (jsSort_perm _ _)))

theorem applySort_price_asc (host : Host) (l : List Item) :
    applySort host "price-asc".toList l
      = jsSort (fun a b => sortSign (JSNumber.sub a.price_numeric b.price_numeric)) l := by
  have h1 : ¬ ("price-asc".toList = "title-asc".toList) := by decide
  have h2 : ¬ ("price-asc".toList = "title-desc".toList) := by decide
  have h4 : ¬ ("price-asc".toList = "price-desc".toList) := by decide
  simp only [applySort, h1, h2, h4, if_false, if_true]

theorem applySort_price_desc (host : Host) (l : List Item) :
    applySort host "price-desc".toList l
      = jsSort (fun a b => sortSign (JSNumber.sub b.price_numeric a.price_numeric)) l := by
  have h1 : ¬ ("price-desc".toList = "title-asc".toList) := by decide
  have h2 : ¬ ("price-desc".toList = "title-desc".toList) := by decide
  have h4 : ¬ ("price-desc".toList = "price-asc".toList) := by decide
  simp only [applySort, h1, h2, h4, if_false, if_true]

theorem applySort_title_asc (host : Host) (l : List Item) :
    applySort host "title-asc".toList l
      = jsSort (fun a b => host.localeCompare a.title b.title) l := by
  have h1 : ¬ ("title-asc".toList = "price-asc".toList) := by decide
  have h2 : ¬ ("title-asc".toList = "title-desc".toList) := by decide
  have h4 : ¬ ("title-asc".toList = "price-desc".toList) := by decide
  simp only [applySort, h1, h2, h4, if_false, if_true]

theorem applySort_title_desc (host : Host) (l : List Item) :
    applySort host "title-desc".toList l
      = jsSort (fun a b => host.localeCompare b.title a.title) l := by
  have h1 : ¬ ("title-desc".toList = "price-asc".toList) := by decide
  have h2 : ¬ ("title-desc".toList = "title-asc".toList) := by decide
  have h4 : ¬ ("title-desc".toList = "price-desc".toList) := by decide
  simp only [applySort, h1, h2, h4, if_false, if_true]

theorem val_str_or_empty (s : JSString) :
    ((Val.str s).or (Val.str [])).toJSString = s := by
  cases s <;> rfl

theorem renderView_eq (host : Host) (items : List Item) (q c v : JSString) :
    renderView host items q c v
      = applySort host v (items.filter (fun x => decide (specMatches host q c x))) := by
  unfold renderView
  simp only [val_str_or_empty, List.filter_filter]
  congr 1
  apply List.filter_congr
  intro x _
  apply Bool.eq_iff_iff.mpr
  simp only [Bool.and_eq_true, Bool.or_eq_true, decide_eq_true_eq, List.isEmpty_iff,
    specMatches, jsIncludes]
  by_cases hc : c = [] <;> by_cases hq : host.toLowerCase q = [] <;> simp [hc, hq] <;> tauto

/-- C8. For every item list, selected category `c` (empty when none is selected),
search text `q` and sort mode: the view computed by `render` is a rearrangement
of exactly the items that have `cat` equal to `c` (when one is selected) and
whose lower-cased title, description or category contains the lower-cased search
text (when it is not empty), each as often as the master list has it; the view
is in non-decreasing `price_numeric` order for `price-asc`, non-increasing for
`price-desc`, ascending by the title comparison for `title-asc` and descending
for `title-desc` (the title comparison being a consistent comparator, as `sort`
requires); and `render` leaves the master list as it is. -/
theorem render_view_filtered_sorted (host : Host) (items : List Item) (q c v : JSString) :
    (renderView host items q c v).Perm
        (items.filter (fun x => decide (specMatches host q c x))) ∧
    (v = "price-asc".toList → (renderView host items q c v).Pairwise
        (fun a b => JSNumber.le a.price_numeric b.price_numeric)) ∧
    (v = "price-desc".toList → (renderView host items q c v).Pairwise
        (fun a b => JSNumber.le b.price_numeric a.price_numeric)) ∧
    (v = "title-asc".toList → ConsistentCompare host.localeCompare →
      (renderView host items q c v).Pairwise
        (fun a b => host.localeCompare a.title b.title ≤ 0)) ∧
    (v = "title-desc".toList → ConsistentCompare host.localeCompare →
      (renderView host items q c v).Pairwise
        (fun a b => host.localeCompare b.title a.title ≤ 0)) ∧
    (render host q c v ⟨items, []⟩).items = items ∧
    (render host q c v ⟨items, []⟩).grid = renderView host items q c v := by
  refine ⟨?_, ?_, ?_, ?_, ?_, rfl, rfl⟩
  · rw [renderView_eq]; exact applySort_perm host v _
  · intro hv
    rw [renderView_eq, hv, applySort_price_asc]
    have h := jsSort_sorted
      (fun a b : Item => sortSign (JSNumber.sub a.price_numeric b.price_numeric))
      (fun a b => by
        simp only [sortSign_sub_le_iff]
        exact jsNumber_le_total _ _)
      (fun a b d => by
        simp only [sortSign_sub_le_iff]
        exact jsNumber_le_trans _ _ _)
      (items.filter (fun x => decide (specMatches host q c x)))
    exact h.imp (fun h => (sortSign_sub_le_iff _ _).mp h)
  · intro hv
    rw [renderView_eq, hv, applySort_price_desc]
    have h := jsSort_sorted
      (fun a b : Item => sortSign (JSNumber.sub b.price_numeric a.price_numeric))
      (fun a b => by
        simp only [sortSign_sub_le_iff]
        exact jsNumber_le_total _ _)
      (fun a b d => by
        simp only [sortSign_sub_le_iff]
        exact fun h1 h2 => jsNumber_le_trans _ _ _ h2 h1)
      (items.filter (fun x => decide (specMatches host q c x)))
    exact h.imp (fun h => (sortSign_sub_le_iff _ _).mp h)
  · intro hv hc
    rw [renderView_eq, hv, applySort_title_asc]
    exact jsSort_sorted (fun a b : Item => host.localeCompare a.title b.title)
      (fun a b => hc.1 _ _) (fun a b d => hc.2 _ _ _) _
  · intro hv hc
    rw [renderView_eq, hv, applySort_title_desc]
    exact jsSort_sorted (fun a b : Item => host.localeCompare b.title a.title)
      (fun a b => hc.1 _ _) (fun a b d h1 h2 => hc.2 _ _ _ h2 h1) _

theorem sampleHost_consistent : ConsistentCompare sampleHost.localeCompare := by
  have key : ∀ a b : JSString, sampleHost.localeCompare a b ≤ 0 ↔ a ≤ b := by
    intro a b
    simp only [sampleHost]
    split_ifs with h1 h2
    · subst h1; simp
    · simp [le_of_lt h2]
    · simp only [Int.reduceLE, false_iff, not_le]
      exact lt_of_le_of_ne (not_lt.mp h2) (Ne.symm h1)
  constructor
  · intro a b
    rw [key, key]
    exact le_total a b
  · intro a b d
    rw [key, key, key]
    exact le_trans

/-- Witness for C8: the spec's two items, `B` at 10 and `A` at 20, no category and
no search text; `title-asc` arranges them by title and `price-desc` by falling
price. -/
theorem render_view_filtered_sorted_witness :
    (renderView sampleHost
        [⟨[], [], "B".toList, [], [], JSNumber.fin 10, []⟩,
         ⟨[], [], "A".toList, [], [], JSNumber.fin 20, []⟩] [] [] "title-asc".toList).Pairwise
      (fun a b => sampleHost.localeCompare a.title b.title ≤ 0) ∧
    (renderView sampleHost
        [⟨[], [], "B".toList, [], [], JSNumber.fin 10, []⟩,
         ⟨[], [], "A".toList, [], [], JSNumber.fin 20, []⟩] [] [] "price-desc".toList).Pairwise
      (fun a b => JSNumber.le b.price_numeric a.price_numeric) :=
  ⟨(render_view_filtered_sorted sampleHost
      [⟨[], [], "B".toList, [], [], JSNumber.fin 10, []⟩,
       ⟨[], [], "A".toList, [], [], JSNumber.fin 20, []⟩] [] [] "title-asc".toList).2.2.2.1
      rfl sampleHost_consistent,
   (render_view_filtered_sorted sampleHost
      [⟨[], [], "B".toList, [], [], JSNumber.fin 10, []⟩,
       ⟨[], [], "A".toList, [], [], JSNumber.fin 20, []⟩] [] [] "price-desc".toList).2.2.1
      rfl⟩

/-! ## The examples of the spec's section 8 -/

theorem spec_example_title_asc :
    (renderView sampleHost
        [⟨[], [], "B".toList, [], [], JSNumber.fin 10, []⟩,
         ⟨[], [], "A".toList, [], [], JSNumber.fin 20, []⟩] [] [] "title-asc".toList).map
      (fun x => x.title) = ["A".toList, "B".toList] := by
  decide

theorem spec_example_search_desc :
    (renderView sampleHost
        [⟨[], [], "B".toList, "oak table".toList, [], JSNumber.fin 10, []⟩,
         ⟨[], [], "A".toList, "pine chair".toList, [], JSNumber.fin 20, []⟩]
        "Chair".toList [] []).map (fun x => x.title) = ["A".toList] := by
  decide

theorem spec_example_synthesized_display :
    (toItem sampleHost [("price_display".toList, []),
        ("ar_indulo_huf".toList, "1000".toList),
        ("ar_gyors_huf".toList, "2000".toList)]).price_display
      = "Induló: 1000 Ft / Gyors: 2000 Ft".toList := by
  decide

end Catalog
